import Mathlib

/-!
Verification of the photography import/cleanup scripts:
a shallow embedding of the markdown record extractor
(`scripts/import_skater_requests.py`: `parse_skater_name`, `parse_status`,
`parse_markdown`) and of the duplicate-resolution heuristic
(`scripts/investigate_duplicates.py`: `analyze_duplicates`).

Lines of the input document are modelled as `List Char`; the Python string
operations used by the scripts (`rstrip`, `strip`, `replace`, `in`,
`split`, `startswith`, `int`, float amounts) are embedded as executable
functions below.  Monetary amounts are modelled as `ℚ` (the concrete
amounts appearing in the scripts are dyadic, so `float` arithmetic is
exact on them).  Fallible operations (`int(...)`, list indexing) are
modelled with `Except`/`Option`.
-/

namespace SkaterImport

/-- ASCII whitespace, as recognised by Python's `str.strip`/`split`. -/
def isWs (c : Char) : Bool :=
  c = ' ' || c = '\t' || c = '\n' || c = '\x0d' || c = '\x0b' || c = '\x0c'

/-- Python `str.lstrip()`. -/
def lstripL (l : List Char) : List Char := l.dropWhile isWs

/-- Python `str.rstrip()`. -/
def rstripL (l : List Char) : List Char := (l.reverse.dropWhile isWs).reverse

/-- Python `str.strip()`. -/
def stripL (l : List Char) : List Char := rstripL (lstripL l)

/-- Worker for `removeAll`; while `skip` is positive the head characters
belong to an occurrence already recognised and are discarded. -/
def removeAllAux (pat : List Char) (skip : Nat) : List Char → List Char
  | [] => []
  | c :: cs =>
    match skip with
    | Nat.succ k => removeAllAux pat k cs
    | 0 =>
      if pat.isPrefixOf (c :: cs) then removeAllAux pat (pat.length - 1) cs
      else c :: removeAllAux pat 0 cs

/-- Python `s.replace(pat, '')`: remove every (leftmost, non-overlapping)
occurrence of `pat`. -/
def removeAll (pat : List Char) (l : List Char) : List Char :=
  removeAllAux pat 0 l

/-- Python `pat in s` (substring containment). -/
def containsSub (pat : List Char) : List Char → Bool
  | [] => pat.isEmpty
  | c :: cs => pat.isPrefixOf (c :: cs) || containsSub pat cs

/-- Python `s.split(pat, 1)[1]`: the text after the first occurrence of
`pat` (callers guard on `pat in s`; on absence we return `[]`). -/
def afterFirst (pat : List Char) : List Char → List Char
  | [] => []
  | c :: cs =>
    if pat.isPrefixOf (c :: cs) then (c :: cs).drop pat.length
    else afterFirst pat cs

/-- Worker for `splitWs`; `acc` holds the current token reversed. -/
def splitWsGo (acc : List Char) : List Char → List (List Char)
  | [] => if acc.isEmpty then [] else [acc.reverse]
  | c :: cs =>
    if isWs c then
      if acc.isEmpty then splitWsGo [] cs else acc.reverse :: splitWsGo [] cs
    else splitWsGo (c :: acc) cs

/-- Python `s.split()` (split on whitespace runs, no empty tokens). -/
def splitWs (l : List Char) : List (List Char) := splitWsGo [] l

/-- Longest whitespace-free prefix together with the remainder. -/
def tokenAux : List Char → List Char × List Char
  | [] => ([], [])
  | c :: cs =>
    if isWs c then ([], c :: cs)
    else
      let p := tokenAux cs
      (c :: p.1, p.2)

/-- Python `s.split(None, 1)`: at most one split on whitespace. -/
def splitMax1 (s : List Char) : List (List Char) :=
  match lstripL s with
  | [] => []
  | c :: cs =>
    let p := tokenAux (c :: cs)
    let r := lstripL p.2
    if r.isEmpty then [p.1] else [p.1, r]

/-- Numeric value of an ASCII digit. -/
def digitVal (c : Char) : Nat := c.toNat - 48

/-- Digits of a nonnegative decimal numeral, accumulated; an underscore is
accepted only between two digits (Python `int` literal rule). -/
def pyDigitsU (acc : Nat) : List Char → Option Nat
  | [] => some acc
  | c :: cs =>
    if c.isDigit then pyDigitsU (10 * acc + digitVal c) cs
    else if c = '_' then
      match cs with
      | d :: ds => if d.isDigit then pyDigitsU (10 * acc + digitVal d) ds else none
      | [] => none
    else none

/-- Nonempty digit string (with optional interior underscores) to `Nat`. -/
def pyNat : List Char → Option Nat
  | [] => none
  | c :: cs => if c.isDigit then pyDigitsU (digitVal c) cs else none

/-- Python `int(token)` on a whitespace-free token: optional sign followed
by digits; anything else raises `ValueError`, modelled as `none`. -/
def pyInt : List Char → Option Int
  | '+' :: rest => (pyNat rest).map Int.ofNat
  | '-' :: rest => (pyNat rest).map (fun n => -(n : Int))
  | l => (pyNat l).map Int.ofNat

/-- `parse_skater_name`: `'Lastname Firstname'` to `(first, last)`.  The
Python code indexes `parts[0]` unconditionally, which raises `IndexError`
when the stripped line is empty; that case is modelled as `none`. -/
def parse_skater_name (l : List Char) : Option (List Char × List Char) :=
  match splitMax1 (stripL l) with
  | [a, b] => some (b, a)
  | [a] => some (a, a)
  | _ => none

/-- Value of a matched amount `d "." f` as a rational, as Python's
`float` computes it on the (short, dyadic) amounts in the documents. -/
def ratVal (d f : List Char) : ℚ :=
  (d.foldl (fun a c => 10 * a + digitVal c) 0 : ℚ) +
    (f.foldl (fun a c => 10 * a + digitVal c) 0 : ℚ) / (10 ^ f.length : ℚ)

/-- Greedy match of the regex fragment `\d+\.?\d*` at the head of `l`,
returning its value and the remainder.  In the status patterns this
fragment is always followed by a literal that starts with `' '` or `')'`,
so greedy (maximal-munch) matching coincides with regex backtracking. -/
def numAfter (l : List Char) : Option (ℚ × List Char) :=
  let d := l.takeWhile Char.isDigit
  let r := l.dropWhile Char.isDigit
  if d.isEmpty then none
  else
    match r with
    | '.' :: r2 => some (ratVal d (r2.takeWhile Char.isDigit), r2.dropWhile Char.isDigit)
    | _ => some (ratVal d [], r)

/-- Match a literal at the head of `l`, returning the remainder. -/
def matchLit (lit l : List Char) : Option (List Char) :=
  if lit.isPrefixOf l then some (l.drop lit.length) else none

/-- The pattern `Purchased - \$(\d+\.?\d*) \(Net: \$(\d+\.?\d*)\)`
anchored at the head of `l`. -/
def matchFullAt (l : List Char) : Option (ℚ × ℚ) := do
  let r1 ← matchLit ("Purchased - $".toList) l
  let (g, r2) ← numAfter r1
  let r3 ← matchLit (" (Net: $".toList) r2
  let (n, r4) ← numAfter r3
  let _ ← matchLit (")".toList) r4
  pure (g, n)

/-- The pattern `Purchased \(Net: \$(\d+\.?\d*)\)` anchored at the head. -/
def matchPurchNetAt (l : List Char) : Option ℚ := do
  let r1 ← matchLit ("Purchased (Net: $".toList) l
  let (n, r2) ← numAfter r1
  let _ ← matchLit (")".toList) r2
  pure n

/-- The pattern `\$(\d+\.?\d*) net` anchored at the head. -/
def matchNetOnlyAt (l : List Char) : Option ℚ := do
  let r1 ← matchLit ("$".toList) l
  let (n, r2) ← numAfter r1
  let _ ← matchLit (" net".toList) r2
  pure n

/-- `re.search` for the full-purchase pattern: leftmost match. -/
def searchFull : List Char → Option (ℚ × ℚ)
  | [] => none
  | c :: cs => (matchFullAt (c :: cs)).orElse fun _ => searchFull cs

/-- `re.search` for the net-only-purchase pattern: leftmost match. -/
def searchPurchNet : List Char → Option ℚ
  | [] => none
  | c :: cs => (matchPurchNetAt (c :: cs)).orElse fun _ => searchPurchNet cs

/-- `re.search` for the `$X net` shorthand pattern: leftmost match. -/
def searchNetOnly : List Char → Option ℚ
  | [] => none
  | c :: cs => (matchNetOnlyAt (c :: cs)).orElse fun _ => searchNetOnly cs

/-- `status_line.replace('Status:', '').strip()`. -/
def statusText (l : List Char) : List Char :=
  stripL (removeAll ("Status:".toList) l)

/-- `parse_status`: try the three purchase patterns in order, first match
wins; otherwise fall back to `('sent', None, None)`. -/
def parse_status (l : List Char) : String × Option ℚ × Option ℚ :=
  let t := statusText l
  match searchFull t with
  | some (g, n) => ("purchased", some g, some n)
  | none =>
    match searchPurchNet t with
    | some n => ("purchased", none, some n)
    | none =>
      match searchNetOnly t with
      | some n => ("purchased", none, some n)
      | none => ("sent", none, none)

instance {ε α : Type} [DecidableEq ε] [DecidableEq α] : DecidableEq (Except ε α) :=
  fun x y =>
    match x, y with
    | .ok a, .ok b =>
      if h : a = b then isTrue (by rw [h]) else isFalse (fun hh => h (Except.ok.inj hh))
    | .error a, .error b =>
      if h : a = b then isTrue (by rw [h]) else isFalse (fun hh => h (Except.error.inj hh))
    | .ok _, .error _ => isFalse (fun hh => Except.noConfusion hh)
    | .error _, .ok _ => isFalse (fun hh => Except.noConfusion hh)

/-- An Entry record accumulated by `parse_markdown` (Python dict with keys
`first_name`, `last_name`, `events`, `email`, `gallery_status`,
`gross_amount`, `net_amount`, `notes`, `section`; the last one is named
`sectionName` here because `section` is a Lean keyword). -/
structure Skater where
  first_name : List Char
  last_name : List Char
  events : List Int
  email : Option (List Char)
  gallery_status : String
  gross_amount : Option ℚ
  net_amount : Option ℚ
  notes : List (List Char)
  sectionName : Option (List Char)
deriving DecidableEq

/-- The loop state of `parse_markdown`: emitted records, the mutable
`current_skater` accumulator, and `current_section_name`. -/
structure PState where
  skaters : List Skater
  current : Option Skater
  currentSection : Option (List Char)
deriving DecidableEq

/-- `line.startswith('##')`. -/
def isHeaderL (l : List Char) : Bool := ("##".toList).isPrefixOf l

/-- The section name recorded by a header line:
`line.replace('##', '').strip()`. -/
def headerName (l : List Char) : List Char := stripL (removeAll ("##".toList) l)

/-- `section != 'All' and current_section_name != section`. -/
def sectionSkip (filter : List Char) (cur : Option (List Char)) : Bool :=
  filter ≠ "All".toList && cur ≠ some filter

/-- `line and not line.startswith(' ') and line[0].isupper()`. -/
def isNameL (l : List Char) : Bool :=
  !l.isEmpty && !((" ".toList).isPrefixOf l) &&
    (match l with
     | c :: _ => c.isUpper
     | [] => false)

/-- `line.strip().startswith('Event ')`. -/
def isEventL (l : List Char) : Bool := ("Event ".toList).isPrefixOf (stripL l)

/-- `'Email:' in line`. -/
def isEmailL (l : List Char) : Bool := containsSub ("Email:".toList) l

/-- `'Status:' in line`. -/
def isStatusL (l : List Char) : Bool := containsSub ("Status:".toList) l

/-- `'Note:' in line`. -/
def isNoteL (l : List Char) : Bool := containsSub ("Note:".toList) l

/-- The fresh accumulator built at a new-subject line. -/
def startSkater (cur : Option (List Char)) (f l : List Char) : Skater :=
  ⟨f, l, [], none, "pending", none, none, [], cur⟩

/-- The update a status line applies to the current accumulator (the line
is the `rstrip`ped one, as in the Python loop). -/
def applyStatus (sk : Skater) (line : List Char) : Skater :=
  let r := parse_status line
  { sk with gallery_status := r.1, gross_amount := r.2.1, net_amount := r.2.2 }

/-- The text an email line stores: `line.split('Email:', 1)[1].strip()`,
demoted to `None` when empty. -/
def emailVal (line : List Char) : Option (List Char) :=
  let e := stripL (afterFirst ("Email:".toList) line)
  if e.isEmpty then none else some e

/-- The update an email line applies to the current accumulator. -/
def applyEmail (sk : Skater) (line : List Char) : Skater :=
  { sk with email := emailVal line }

/-- One iteration of the `for line in f` loop of `parse_markdown`.
`.error` marks the two places the Python body can raise: `int()` on a
malformed event token (`ValueError`) and `parts[0]` on an all-whitespace
subject line (`IndexError`, unreachable, see `parse_skater_name_isSome`). -/
def processLine (filter : List Char) (st : PState) (raw : List Char) :
    Except String PState :=
  let line := rstripL raw
  if isHeaderL line then
    .ok { st with currentSection := some (headerName line) }
  else if sectionSkip filter st.currentSection then .ok st
  else if isNameL line then
    let out :=
      match st.current with
      | some sk => if sk.events.isEmpty then st.skaters else st.skaters ++ [sk]
      | none => st.skaters
    match parse_skater_name line with
    | some (f, l) =>
      .ok { skaters := out, current := some (startSkater st.currentSection f l),
            currentSection := st.currentSection }
    | none => .error "IndexError"
  else
    match st.current with
    | none => .ok st
    | some sk =>
      if isEventL line then
        match splitWs (stripL line) with
        | _ :: t :: _ =>
          match pyInt t with
          | some n => .ok { st with current := some { sk with events := sk.events ++ [n] } }
          | none => .error "ValueError"
        | _ => .error "IndexError"
      else if isEmailL line then
        .ok { st with current := some (applyEmail sk line) }
      else if isStatusL line then
        .ok { st with current := some (applyStatus sk line) }
      else if isNoteL line then
        let sk2 := { sk with notes := sk.notes ++ [stripL (afterFirst ("Note:".toList) line)] }
        .ok { st with current := some sk2 }
      else .ok st

/-- The `# Save last skater` epilogue of `parse_markdown`. -/
def finalize (st : PState) : List Skater :=
  match st.current with
  | some sk => if sk.events.isEmpty then st.skaters else st.skaters ++ [sk]
  | none => st.skaters

/-- `parse_markdown(filepath, section)`: the document is the list of its
lines (the trailing newline of each line is removed by the loop's
`rstrip`, which is part of `processLine`). -/
def parse_markdown (doc : List (List Char)) (filter : List Char) :
    Except String (List Skater) := do
  let st ← doc.foldlM (processLine filter) ⟨[], none, none⟩
  pure (finalize st)

end SkaterImport

namespace DupResolver

/-!
Shallow embedding of `analyze_duplicates` from
`scripts/investigate_duplicates.py`.  A `competed_in` relation record is
modelled by the fields the script reads; field values fetched with
`record.get(...)` are `Option String` (`none` is Python `None`; the
strings `"NONE"` and `""` are the other two values the completeness test
excludes).  The skater/event/competition tables loaded for display are
association lists keyed by the record-id string.  The Python `sort` is
stable (Timsort); `List.insertionSort` with a `≤`-style total relation is
likewise stable, so both produce the same ordering from the same key
function `(-score, created_at)`.
-/

/-- A `competed_in` relation record as `analyze_duplicates` reads it:
`rid` is `str(record['id'])`, `inId`/`outId` are `str(rel['in'])` /
`str(rel['out'])`. -/
structure Rel where
  rid : String
  inId : String
  outId : String
  purchase_amount : Option String
  notes : Option String
  gallery_url : Option String
  purchase_date : Option String
  created_at : Option String
deriving DecidableEq

/-- The `(skater_id, event_id)` grouping key. -/
def relKey (r : Rel) : String × String := (r.inId, r.outId)

/-- `record.get(f) not in [None, 'NONE', '']`. -/
def hasVal (v : Option String) : Bool :=
  match v with
  | none => false
  | some s => s ≠ "NONE" && s ≠ ""

/-- The data-completeness score: 3 for purchase amount, 2 for notes,
2 for gallery url, 1 for purchase date. -/
def score (r : Rel) : Nat :=
  (if hasVal r.purchase_amount then 3 else 0) +
    (if hasVal r.notes then 2 else 0) +
    (if hasVal r.gallery_url then 2 else 0) +
    (if hasVal r.purchase_date then 1 else 0)

/-- The sort tie-breaker `x[3].get('created_at', '')`. -/
def createdKey (r : Rel) : String := r.created_at.getD ""

/-- `a` strictly precedes `b` under the Python sort key
`(-score, created_at)`. -/
def recLt (a b : Rel) : Prop :=
  score b < score a ∨ (score a = score b ∧ createdKey a < createdKey b)

instance : DecidableRel recLt := fun a b => by
  unfold recLt
  exact inferInstance

/-- The non-strict version of `recLt`; sorting a list with a stable sort
by this relation reproduces Python's stable ascending sort on the key
`(-score, created_at)`. -/
def recLe (a b : Rel) : Prop := ¬recLt b a

instance : DecidableRel recLe := fun a b => by
  unfold recLe
  exact inferInstance

/-- Lexicographic order on `(skater_id, event_id)` keys, as used by
`sorted(duplicates.items())`. -/
def keyLe (a b : String × String) : Prop :=
  a.1 < b.1 ∨ (a.1 = b.1 ∧ a.2 ≤ b.2)

instance : DecidableRel keyLe := fun a b => by
  unfold keyLe
  exact inferInstance

/-- The group of records sharing key `k`, in input order (the defaultdict
appends in iteration order). -/
def groupOf (k : String × String) (rels : List Rel) : List Rel :=
  rels.filter (fun r => relKey r = k)

/-- A group sorted by `(-score, created_at)`, stably. -/
def sortedOf (k : String × String) (rels : List Rel) : List Rel :=
  List.insertionSort recLe (groupOf k rels)

instance : Inhabited Rel := ⟨⟨"", "", "", none, none, none, none, none⟩⟩

/-- `record_scores[0]` after sorting: the record recommended to keep. -/
def keepOf (k : String × String) (rels : List Rel) : Rel :=
  (sortedOf k rels).headI

/-- `record_scores[1:]` after sorting: the records marked for deletion. -/
def delsOf (k : String × String) (rels : List Rel) : List Rel :=
  (sortedOf k rels).tail

/-- The duplicate keys (group size > 1), in the order
`sorted(duplicates.items())` visits them. -/
def dupKeys (rels : List Rel) : List (String × String) :=
  List.insertionSort keyLe
    (((rels.map relKey).dedup).filter (fun k => 1 < (groupOf k rels).length))

/-- The skater display table: `{str(s['id']): s for s in ...}`. -/
structure SkRow where
  last_name : Option String
  first_name : Option String
deriving DecidableEq

/-- The event display table row. -/
structure EvRow where
  competition : Option String
  event_number : Option String
deriving DecidableEq

/-- The competition display table row. -/
structure CompRow where
  name : Option String
deriving DecidableEq

/-- Dictionary lookup, `d.get(k)`. -/
def lookupTab {α : Type} (t : List (String × α)) (k : String) : Option α :=
  (t.find? (fun p => p.1 = k)).map Prod.snd

/-- `f"{skater.get('last_name', 'Unknown')}, {skater.get('first_name', 'Unknown')}"`
with `skaters.get(skater_id, {})`. -/
def skaterLabel (smap : List (String × SkRow)) (sid : String) : String :=
  match lookupTab smap sid with
  | some s => (s.last_name.getD "Unknown") ++ ", " ++ (s.first_name.getD "Unknown")
  | none => "Unknown, Unknown"

/-- `f"{comp.get('name', 'Unknown Competition')} #{event.get('event_number', '?')}"`
with the event and competition rows defaulting to `{}`. -/
def eventLabel (emap : List (String × EvRow)) (cmap : List (String × CompRow))
    (eid : String) : String :=
  let ev := lookupTab emap eid
  let compId := (ev.bind (fun e => e.competition)).getD ""
  let cn :=
    match lookupTab cmap compId with
    | some cr => cr.name.getD "Unknown Competition"
    | none => "Unknown Competition"
  cn ++ " #" ++ ((ev.bind (fun e => e.event_number)).getD "?")

/-- One entry of `deletion_plan` (`pid` is the Python key `'id'`). -/
structure PlanEntry where
  pid : String
  skater : String
  event : String
  reason : String
deriving DecidableEq

/-- The plan entry appended for a deleted record `d` when the kept record
scored `keepScore`. -/
def mkPlanEntry (smap : List (String × SkRow)) (emap : List (String × EvRow))
    (cmap : List (String × CompRow)) (k : String × String) (keepScore : Nat)
    (d : Rel) : PlanEntry :=
  { pid := d.rid
    skater := skaterLabel smap k.1
    event := eventLabel emap cmap k.2
    reason := "Lower data completeness score (" ++ toString (score d) ++ "/8 vs "
      ++ toString keepScore ++ "/8)" }

/-- The deletion-plan entries contributed by the duplicate group `k`. -/
def planEntriesOf (k : String × String) (rels : List Rel)
    (smap : List (String × SkRow)) (emap : List (String × EvRow))
    (cmap : List (String × CompRow)) : List PlanEntry :=
  (delsOf k rels).map (mkPlanEntry smap emap cmap k (score (keepOf k rels)))

/-- `analyze_duplicates`: the deletion plan produced from the full
relation collection (the display tables are passed in; the database I/O
and printing around the logic are out of scope). -/
def analyze_duplicates (rels : List Rel) (smap : List (String × SkRow))
    (emap : List (String × EvRow)) (cmap : List (String × CompRow)) :
    List PlanEntry :=
  ((dupKeys rels).map (fun k => planEntriesOf k rels smap emap cmap)).flatten

end DupResolver

namespace DupResolver

def relA : Rel := ⟨"c1", "s1", "e1", some "38.25", none, none, some "d1", some "t1"⟩

def relB : Rel := ⟨"c2", "s1", "e1", none, none, none, none, some "t0"⟩

def relC : Rel := ⟨"c3", "s2", "e1", none, none, none, none, some "t2"⟩

lemma recLt_asymm {a b : Rel} (h1 : recLt a b) (h2 : recLt b a) : False := by
  rcases h1 with h1 | ⟨e1, c1⟩ <;> rcases h2 with h2 | ⟨e2, c2⟩
  · omega
  · omega
  · omega
  · exact absurd c2 (not_lt.mpr (le_of_lt c1))

lemma not_recLt_iff {a b : Rel} :
    ¬recLt a b ↔ score a ≤ score b ∧ (score a = score b → createdKey b ≤ createdKey a) := by
  unfold recLt
  push_neg
  exact Iff.rfl

instance : IsTotal Rel recLe :=
  ⟨fun a b => by
    unfold recLe
    rcases Decidable.em (recLt b a) with h | h
    · exact Or.inr fun h2 => recLt_asymm h h2
    · exact Or.inl h⟩

instance : IsTrans Rel recLe :=
  ⟨fun a b c hab hbc => by
    unfold recLe at *
    rw [not_recLt_iff] at *
    obtain ⟨s1, t1⟩ := hab
    obtain ⟨s2, t2⟩ := hbc
    refine ⟨le_trans s2 s1, fun he => ?_⟩
    have e1 : score b = score a := by omega
    have e2 : score c = score b := by omega
    exact le_trans (t1 e1) (t2 e2)⟩

/-- A nonempty group's sorted list decomposes as kept head and deleted
tail. -/
lemma sortedOf_cons {k : String × String} {rels : List Rel}
    (h : groupOf k rels ≠ []) :
    sortedOf k rels = keepOf k rels :: delsOf k rels := by
  have hp := List.perm_insertionSort recLe (groupOf k rels)
  have hne : sortedOf k rels ≠ [] := by
    intro hnil
    have hl := hp.length_eq
    rw [show sortedOf k rels = List.insertionSort recLe (groupOf k rels) from rfl] at hnil
    rw [hnil] at hl
    exact h (List.length_eq_zero.mp hl.symm)
  unfold keepOf delsOf
  cases hx : sortedOf k rels with
  | nil => exact absurd hx hne
  | cons x xs => simp

/-- The kept record dominates every deleted record of its group under the
`(-score, created_at)` order. -/
lemma keep_dominates {k : String × String} {rels : List Rel}
    (h : groupOf k rels ≠ []) :
    ∀ d ∈ delsOf k rels,
      score d ≤ score (keepOf k rels) ∧
        (score d = score (keepOf k rels) →
          createdKey (keepOf k rels) ≤ createdKey d) := by
  intro d hd
  have hs : List.Sorted recLe (sortedOf k rels) :=
    List.sorted_insertionSort recLe (groupOf k rels)
  rw [sortedOf_cons h, List.sorted_cons] at hs
  have := hs.1 d hd
  unfold recLe at this
  rw [not_recLt_iff] at this
  exact this

/-- Every record of the sorted group belongs to the group. -/
lemma mem_group_of_mem_sorted {k : String × String} {rels : List Rel} {d : Rel}
    (hd : d ∈ sortedOf k rels) : d ∈ groupOf k rels :=
  (List.perm_insertionSort recLe (groupOf k rels)).mem_iff.mp hd

/-- A duplicate key is listed in `dupKeys`. -/
lemma mem_dupKeys {k : String × String} {rels : List Rel}
    (h : 1 < (groupOf k rels).length) : k ∈ dupKeys rels := by
  unfold dupKeys
  rw [List.mem_insertionSort, List.mem_filter]
  have hne : groupOf k rels ≠ [] := by
    intro hnil
    rw [hnil] at h
    simp at h
  obtain ⟨r, hr⟩ := List.exists_mem_of_ne_nil _ hne
  have hr2 := List.mem_filter.mp hr
  refine ⟨List.mem_dedup.mpr (List.mem_map.mpr ⟨r, hr2.1, ?_⟩), by simpa using h⟩
  simpa using hr2.2

/-- Plan entries of a duplicate group appear in the full deletion plan. -/
lemma planEntries_subset_plan {k : String × String} {rels : List Rel}
    {smap : List (String × SkRow)} {emap : List (String × EvRow)}
    {cmap : List (String × CompRow)} (h : 1 < (groupOf k rels).length) :
    ∀ p ∈ planEntriesOf k rels smap emap cmap,
      p ∈ analyze_duplicates rels smap emap cmap := by
  intro p hp
  unfold analyze_duplicates
  rw [List.mem_flatten]
  exact ⟨planEntriesOf k rels smap emap cmap,
    List.mem_map_of_mem _ (mem_dupKeys h), hp⟩

/-- When no two records share a key, every group has at most one
member. -/
lemma length_group_le_one {rels : List Rel}
    (h : rels.Pairwise (fun a b => relKey a ≠ relKey b)) (k : String × String) :
    (groupOf k rels).length ≤ 1 := by
  induction rels with
  | nil => simp [groupOf]
  | cons r rest ih =>
    rw [List.pairwise_cons] at h
    obtain ⟨hr, hrest⟩ := h
    have ih2 := ih hrest
    unfold groupOf at ih2 ⊢
    rw [List.filter_cons]
    by_cases hk : relKey r = k
    · have hnil : rest.filter (fun x => decide (relKey x = k)) = [] := by
        rw [List.filter_eq_nil_iff]
        intro x hx
        simp only [decide_eq_true_eq]
        exact fun hc => hr x hx (hk.trans hc.symm)
      simp [hk, hnil]
    · simpa [hk] using ih2

/-- C2: in every duplicate group (size > 1) the plan deletes exactly
`size - 1` records of that group, each deleted record scores no more than
the kept one, ties are resolved in favour of the earliest `created_at`
string, and the group's deletion entries all appear in the full plan. -/
theorem claim_C2_duplicate_group_resolution (rels : List Rel)
    (smap : List (String × SkRow)) (emap : List (String × EvRow))
    (cmap : List (String × CompRow)) (k : String × String)
    (h : 1 < (groupOf k rels).length) :
    (planEntriesOf k rels smap emap cmap).length = (groupOf k rels).length - 1
    ∧ keepOf k rels ∈ groupOf k rels
    ∧ (∀ p ∈ planEntriesOf k rels smap emap cmap,
        ∃ d, d ∈ groupOf k rels ∧ p.pid = d.rid
          ∧ score d ≤ score (keepOf k rels)
          ∧ (score d = score (keepOf k rels) →
              createdKey (keepOf k rels) ≤ createdKey d))
    ∧ (∀ p ∈ planEntriesOf k rels smap emap cmap,
        p ∈ analyze_duplicates rels smap emap cmap) := by
  have hne : groupOf k rels ≠ [] := by
    intro hnil
    rw [hnil] at h
    simp at h
  have hcons := sortedOf_cons hne
  have hlen : (sortedOf k rels).length = (groupOf k rels).length :=
    (List.perm_insertionSort recLe (groupOf k rels)).length_eq
  refine ⟨?_, ?_, ?_, planEntries_subset_plan h⟩
  · unfold planEntriesOf
    rw [List.length_map]
    unfold delsOf
    rw [List.length_tail, hlen]
  · exact mem_group_of_mem_sorted (by rw [hcons]; exact List.mem_cons_self _ _)
  · intro p hp
    obtain ⟨d, hd, hpd⟩ := List.mem_map.mp hp
    refine ⟨d, ?_, by rw [← hpd]; rfl, keep_dominates hne d hd⟩
    exact mem_group_of_mem_sorted (by rw [hcons]; exact List.mem_cons_of_mem _ hd)

/-- Witness for C2 at a concrete duplicate collection. -/
theorem claim_C2_witness :
    1 < (groupOf ("s1", "e1") [relA, relB, relC]).length
    ∧ (planEntriesOf ("s1", "e1") [relA, relB, relC] [] [] []).length
        = (groupOf ("s1", "e1") [relA, relB, relC]).length - 1 :=
  ⟨by decide,
    (claim_C2_duplicate_group_resolution [relA, relB, relC] [] [] []
      ("s1", "e1") (by decide)).1⟩

/-- C5: a collection with pairwise-distinct `(subject, target)` keys
yields an empty deletion plan. -/
theorem claim_C5_no_duplicates_empty_plan (rels : List Rel)
    (smap : List (String × SkRow)) (emap : List (String × EvRow))
    (cmap : List (String × CompRow))
    (h : rels.Pairwise (fun a b => relKey a ≠ relKey b)) :
    analyze_duplicates rels smap emap cmap = [] := by
  have hd : dupKeys rels = [] := by
    unfold dupKeys
    have hf : ((rels.map relKey).dedup).filter
        (fun k => decide (1 < (groupOf k rels).length)) = [] := by
      rw [List.filter_eq_nil_iff]
      intro k _
      have := length_group_le_one h k
      simpa using by omega
    rw [hf]
    rfl
  unfold analyze_duplicates
  rw [hd]
  rfl

/-- Witness for C5 at a concrete duplicate-free collection. -/
theorem claim_C5_witness :
    List.Pairwise (fun a b => relKey a ≠ relKey b) [relB, relC]
    ∧ analyze_duplicates [relB, relC] [] [] [] = [] :=
  ⟨by decide, claim_C5_no_duplicates_empty_plan [relB, relC] [] [] [] (by decide)⟩

/-- C6: the resolver is a pure function of the loaded collection (and the
display tables): equal inputs give plans equal entry for entry.  In the
embedding this is function congruence; the content is that the plan
depends on nothing besides the inputs. -/
theorem claim_C6_resolver_deterministic (rels1 rels2 : List Rel)
    (smap : List (String × SkRow)) (emap : List (String × EvRow))
    (cmap : List (String × CompRow)) (h : rels1 = rels2) :
    analyze_duplicates rels1 smap emap cmap
      = analyze_duplicates rels2 smap emap cmap := by
  rw [h]

/-- Witness for C6 at a concrete collection. -/
theorem claim_C6_witness :
    [relA, relB, relC] = [relA, relB, relC]
    ∧ analyze_duplicates [relA, relB, relC] [] [] []
        = analyze_duplicates [relA, relB, relC] [] [] [] :=
  ⟨rfl, claim_C6_resolver_deterministic [relA, relB, relC] [relA, relB, relC]
    [] [] [] rfl⟩

/-- C8: after sorting, the first record of a duplicate group is kept and
the remaining ones are the deletion entries, each annotated with its own
score against the kept record's score (which exhibits the score delta). -/
theorem claim_C8_keep_first_delete_rest (rels : List Rel)
    (smap : List (String × SkRow)) (emap : List (String × EvRow))
    (cmap : List (String × CompRow)) (k : String × String)
    (h : 1 < (groupOf k rels).length) :
    sortedOf k rels = keepOf k rels :: delsOf k rels
    ∧ planEntriesOf k rels smap emap cmap
        = (delsOf k rels).map (mkPlanEntry smap emap cmap k (score (keepOf k rels)))
    ∧ ∀ p ∈ planEntriesOf k rels smap emap cmap, ∃ d ∈ delsOf k rels,
        p.reason = "Lower data completeness score (" ++ toString (score d)
          ++ "/8 vs " ++ toString (score (keepOf k rels)) ++ "/8)" := by
  have hne : groupOf k rels ≠ [] := by
    intro hnil
    rw [hnil] at h
    simp at h
  refine ⟨sortedOf_cons hne, rfl, ?_⟩
  intro p hp
  obtain ⟨d, hd, hpd⟩ := List.mem_map.mp hp
  exact ⟨d, hd, by rw [← hpd]; rfl⟩

/-- Witness for C8 at a concrete duplicate collection. -/
theorem claim_C8_witness :
    1 < (groupOf ("s1", "e1") [relA, relB, relC]).length
    ∧ sortedOf ("s1", "e1") [relA, relB, relC]
        = keepOf ("s1", "e1") [relA, relB, relC]
          :: delsOf ("s1", "e1") [relA, relB, relC] :=
  ⟨by decide,
    (claim_C8_keep_first_delete_rest [relA, relB, relC] [] [] []
      ("s1", "e1") (by decide)).1⟩

end DupResolver

namespace SkaterImport

/-- C4: `parse_status` tries full purchase, then purchase-with-net-only,
then the `$X net` shorthand, first match wins, and any other text yields
`('sent', None, None)`; in particular the two concrete status lines of
the spec parse as stated. -/
theorem claim_C4_parse_status_order :
    parse_status ("Status: Purchased - $45.00 (Net: $38.25)".toList)
      = ("purchased", some (45 : ℚ), some (38.25 : ℚ))
    ∧ parse_status ("Status: Purchased (Net: $20.00)".toList)
      = ("purchased", none, some (20 : ℚ))
    ∧ (∀ l g n, searchFull (statusText l) = some (g, n) →
        parse_status l = ("purchased", some g, some n))
    ∧ (∀ l n, searchFull (statusText l) = none →
        searchPurchNet (statusText l) = some n →
        parse_status l = ("purchased", none, some n))
    ∧ (∀ l n, searchFull (statusText l) = none →
        searchPurchNet (statusText l) = none →
        searchNetOnly (statusText l) = some n →
        parse_status l = ("purchased", none, some n))
    ∧ (∀ l, searchFull (statusText l) = none →
        searchPurchNet (statusText l) = none →
        searchNetOnly (statusText l) = none →
        parse_status l = ("sent", none, none)) := by
  refine ⟨by with_unfolding_all decide, by with_unfolding_all decide,
    ?_, ?_, ?_, ?_⟩
  · intro l g n h
    simp only [parse_status]
    rw [h]
  · intro l n h1 h2
    simp only [parse_status]
    rw [h1, h2]
  · intro l n h1 h2 h3
    simp only [parse_status]
    rw [h1, h2, h3]
  · intro l h1 h2 h3
    simp only [parse_status]
    rw [h1, h2, h3]

/-- Witness for C4: the fallback case at a concrete unrecognized line. -/
theorem claim_C4_witness :
    searchFull (statusText ("Status: hello".toList)) = none
    ∧ searchPurchNet (statusText ("Status: hello".toList)) = none
    ∧ searchNetOnly (statusText ("Status: hello".toList)) = none
    ∧ parse_status ("Status: hello".toList) = ("sent", none, none) :=
  ⟨by decide, by decide, by decide,
    claim_C4_parse_status_order.2.2.2.2.2 ("Status: hello".toList)
      (by decide) (by decide) (by decide)⟩

/-- A whitespace-free list is one whole token for `tokenAux`. -/
lemma tokenAux_eq_of_all {s : List Char} (h : ∀ c ∈ s, isWs c = false) :
    tokenAux s = (s, []) := by
  induction s with
  | nil => rfl
  | cons c cs ih =>
    have hc := h c (List.mem_cons_self _ _)
    have ih2 := ih fun x hx => h x (List.mem_cons_of_mem _ hx)
    simp [tokenAux, hc, ih2]

/-- C9: a subject line whose stripped text is a single
whitespace-separated token (equivalently: nonempty and containing no
whitespace) parses to that token as both name parts, without raising. -/
theorem claim_C9_single_token_name (l : List Char)
    (hne : stripL l ≠ []) (htok : ∀ c ∈ stripL l, isWs c = false) :
    parse_skater_name l = some (stripL l, stripL l) := by
  cases hs : stripL l with
  | nil => exact absurd hs hne
  | cons c cs =>
    rw [hs] at htok
    have hc : isWs c = false := htok c (List.mem_cons_self _ _)
    have hls : lstripL (c :: cs) = c :: cs := by
      simp [lstripL, List.dropWhile_cons, hc]
    have hta := tokenAux_eq_of_all htok
    unfold parse_skater_name
    rw [hs]
    unfold splitMax1
    rw [hls]
    simp [hta, lstripL]

/-- Witness for C9 at the single-token line `"Smith"`. -/
theorem claim_C9_witness :
    stripL ("Smith".toList) ≠ []
    ∧ (∀ c ∈ stripL ("Smith".toList), isWs c = false)
    ∧ parse_skater_name ("Smith".toList)
        = some (stripL ("Smith".toList), stripL ("Smith".toList)) :=
  ⟨by decide, by decide,
    claim_C9_single_token_name ("Smith".toList) (by decide) (by decide)⟩

lemma events_ne_of_isEmpty_false {sk : Skater} (he : sk.events.isEmpty = false) :
    sk.events ≠ [] := by
  intro hnil
  rw [hnil] at he
  simp at he

/-- A loop step either leaves the emitted list unchanged or appends the
current accumulator, and only when its reference list is nonempty. -/
lemma processLine_skaters {filter : List Char} {st : PState} {raw : List Char}
    {st' : PState} (h : processLine filter st raw = .ok st') :
    st'.skaters = st.skaters ∨
      ∃ sk, st.current = some sk ∧ sk.events ≠ [] ∧
        st'.skaters = st.skaters ++ [sk] := by
  simp only [processLine] at h
  split at h
  · rw [Except.ok.injEq] at h
    subst h
    exact Or.inl rfl
  split at h
  · rw [Except.ok.injEq] at h
    subst h
    exact Or.inl rfl
  split at h
  · split at h
    · rw [Except.ok.injEq] at h
      subst h
      dsimp only
      cases hc : st.current with
      | none => exact Or.inl rfl
      | some sk =>
        by_cases he : sk.events.isEmpty = true
        · simp [he]
        · simp only [Bool.not_eq_true] at he
          exact Or.inr ⟨sk, rfl, events_ne_of_isEmpty_false he, by simp [he]⟩
    · exact absurd h (by simp)
  · split at h
    · rw [Except.ok.injEq] at h
      subst h
      exact Or.inl rfl
    · split at h
      · split at h
        · split at h
          · rw [Except.ok.injEq] at h
            subst h
            exact Or.inl rfl
          · exact absurd h (by simp)
        · exact absurd h (by simp)
      split at h
      · rw [Except.ok.injEq] at h
        subst h
        exact Or.inl rfl
      split at h
      · rw [Except.ok.injEq] at h
        subst h
        exact Or.inl rfl
      split at h
      · rw [Except.ok.injEq] at h
        subst h
        exact Or.inl rfl
      · rw [Except.ok.injEq] at h
        subst h
        exact Or.inl rfl

/-- The emitted-entries invariant is preserved across the whole loop. -/
lemma foldlM_events_inv {filter : List Char} :
    ∀ (doc : List (List Char)) (st st' : PState),
      doc.foldlM (processLine filter) st = .ok st' →
      (∀ sk ∈ st.skaters, sk.events ≠ []) →
      ∀ sk ∈ st'.skaters, sk.events ≠ [] := by
  intro doc
  induction doc with
  | nil =>
    intro st st' h hin
    simp only [List.foldlM_nil] at h
    have hst : st = st' := by simpa [pure, Except.pure] using h
    exact hst ▸ hin
  | cons raw rest ih =>
    intro st st' h hin
    rw [List.foldlM_cons] at h
    cases hp : processLine filter st raw with
    | error e =>
      rw [hp] at h
      exact absurd h (by simp [Bind.bind, Except.bind])
    | ok st1 =>
      rw [hp] at h
      simp only [Bind.bind, Except.bind] at h
      rcases processLine_skaters hp with he | ⟨sk0, _, hev, he⟩
      · exact ih st1 st' h (by rw [he]; exact hin)
      · refine ih st1 st' h ?_
        rw [he]
        intro x hx
        rcases List.mem_append.mp hx with hx1 | hx1
        · exact hin x hx1
        · rw [List.mem_singleton.mp hx1]
          exact hev

/-- The document-end emission keeps the invariant as well. -/
lemma finalize_events {st : PState} (hin : ∀ sk ∈ st.skaters, sk.events ≠ []) :
    ∀ sk ∈ finalize st, sk.events ≠ [] := by
  unfold finalize
  cases hc : st.current with
  | none => exact hin
  | some sk =>
    by_cases he : sk.events.isEmpty = true
    · simpa [he] using hin
    · simp only [Bool.not_eq_true] at he
      simp only [he, Bool.false_eq_true, if_false]
      intro x hx
      rcases List.mem_append.mp hx with hx1 | hx1
      · exact hin x hx1
      · rw [List.mem_singleton.mp hx1]
        exact events_ne_of_isEmpty_false he

/-- C1: every Entry record in a successful extraction carries at least
one reference number; an accumulated entry with zero references is never
emitted, neither at a new-subject line nor at document end. -/
theorem claim_C1_emitted_have_events (doc : List (List Char)) (filter : List Char)
    (sks : List Skater) (h : parse_markdown doc filter = .ok sks) :
    ∀ sk ∈ sks, sk.events ≠ [] := by
  unfold parse_markdown at h
  cases hf : doc.foldlM (processLine filter) ⟨[], none, none⟩ with
  | error e =>
    rw [hf] at h
    exact absurd h (by simp [Bind.bind, Except.bind])
  | ok stf =>
    rw [hf] at h
    simp only [Bind.bind, Except.bind, pure, Except.pure, Except.ok.injEq] at h
    subst h
    exact finalize_events (foldlM_events_inv doc _ _ hf (by simp))

def docC1 : List (List Char) := ["A".toList, " Event 1".toList]

def entryC1 : Skater :=
  ⟨"A".toList, "A".toList, [1], none, "pending", none, none, [], none⟩

/-- Witness for C1 at a concrete two-line document. -/
theorem claim_C1_witness :
    parse_markdown docC1 ("All".toList) = .ok [entryC1] ∧ entryC1.events ≠ [] :=
  ⟨by with_unfolding_all decide,
    claim_C1_emitted_have_events docC1 ("All".toList) [entryC1]
      (by with_unfolding_all decide) entryC1 (List.mem_singleton.mpr rfl)⟩

/-- No line of the document is processed inside a section matching the
filter: every line is either a section header (which only updates the
tracked section name) or is skipped by the
`section != 'All' and current_section_name != section` test. -/
def allSkipped (filter : List Char) : Option (List Char) → List (List Char) → Bool
  | _, [] => true
  | cur, raw :: rest =>
    if isHeaderL (rstripL raw) then
      allSkipped filter (some (headerName (rstripL raw))) rest
    else sectionSkip filter cur && allSkipped filter cur rest

/-- Under `allSkipped` the loop state never acquires a current entry or an
emitted record. -/
lemma foldlM_allSkipped {filter : List Char} :
    ∀ (doc : List (List Char)) (cur : Option (List Char)),
      allSkipped filter cur doc = true →
      ∃ cur', doc.foldlM (processLine filter) ⟨[], none, cur⟩
        = .ok ⟨[], none, cur'⟩ := by
  intro doc
  induction doc with
  | nil =>
    intro cur _
    exact ⟨cur, by simp [List.foldlM_nil, pure, Except.pure]⟩
  | cons raw rest ih =>
    intro cur h
    unfold allSkipped at h
    by_cases h1 : isHeaderL (rstripL raw) = true
    · rw [if_pos h1] at h
      obtain ⟨cur', hr⟩ := ih _ h
      refine ⟨cur', ?_⟩
      rw [List.foldlM_cons]
      have hp : processLine filter ⟨[], none, cur⟩ raw
          = .ok ⟨[], none, some (headerName (rstripL raw))⟩ := by
        simp [processLine, h1]
      rw [hp]
      simpa [Bind.bind, Except.bind] using hr
    · rw [if_neg h1] at h
      rw [Bool.and_eq_true] at h
      obtain ⟨hskip, hrest⟩ := h
      obtain ⟨cur', hr⟩ := ih _ hrest
      refine ⟨cur', ?_⟩
      rw [List.foldlM_cons]
      have hp : processLine filter ⟨[], none, cur⟩ raw = .ok ⟨[], none, cur⟩ := by
        simp only [Bool.not_eq_true] at h1
        simp [processLine, h1, hskip]
      rw [hp]
      simpa [Bind.bind, Except.bind] using hr

/-- C7: a document none of whose lines lies in a section matching the
filter extracts to the empty sequence. -/
theorem claim_C7_no_matching_section (doc : List (List Char)) (filter : List Char)
    (h : allSkipped filter none doc = true) :
    parse_markdown doc filter = .ok [] := by
  obtain ⟨cur', hf⟩ := foldlM_allSkipped doc none h
  unfold parse_markdown
  rw [hf]
  simp [Bind.bind, Except.bind, finalize, pure, Except.pure]

/-- Witness for C7 at a concrete document whose only section is `A` while
the filter asks for `B`. -/
theorem claim_C7_witness :
    allSkipped ("B".toList) none ["## A".toList, "Smith John".toList] = true
    ∧ parse_markdown ["## A".toList, "Smith John".toList] ("B".toList) = .ok [] :=
  ⟨by decide,
    claim_C7_no_matching_section ["## A".toList, "Smith John".toList]
      ("B".toList) (by decide)⟩

/-- C3 counterexample: the extractor is not total.  On a document whose
indented `Event` line carries a non-integer token, the loop body runs
`int(line.strip().split()[1])`, which raises `ValueError`. -/
theorem claim_C3_counterexample :
    parse_markdown ["A".toList, "  Event x".toList] ("All".toList)
      = .error "ValueError" := by
  with_unfolding_all decide

/-- A line is harmless for the `int()` call: either it does not look like
a reference-number line, or its second whitespace token parses as an
integer. -/
def goodEventLine (raw : List Char) : Bool :=
  !(isEventL (rstripL raw)) ||
    (match splitWs (stripL (rstripL raw)) with
     | _ :: t :: _ => (pyInt t).isSome
     | _ => false)

lemma isUpper_not_ws {c : Char} (h : c.isUpper = true) : isWs c = false := by
  unfold isWs
  by_contra hc
  rw [Bool.not_eq_false] at hc
  simp only [Bool.or_eq_true, decide_eq_true_eq] at hc
  rcases hc with ((((h1 | h1) | h1) | h1) | h1) | h1 <;> subst h1 <;>
    exact absurd h (by decide)

lemma dropWhile_app_last {c : Char} (hc : isWs c = false) :
    ∀ xs : List Char, ∃ u, List.dropWhile isWs (xs ++ [c]) = u ++ [c] := by
  intro xs
  induction xs with
  | nil => exact ⟨[], by simp [List.dropWhile_cons, hc]⟩
  | cons x xs ih =>
    by_cases hx : isWs x = true
    · obtain ⟨u, hu⟩ := ih
      exact ⟨u, by simp [List.dropWhile_cons, hx, hu]⟩
    · simp only [Bool.not_eq_true] at hx
      exact ⟨x :: xs, by simp [List.dropWhile_cons, hx]⟩

lemma rstripL_head {c : Char} {t : List Char} (hc : isWs c = false) :
    ∃ u, rstripL (c :: t) = c :: u := by
  unfold rstripL
  rw [List.reverse_cons]
  obtain ⟨u, hu⟩ := dropWhile_app_last hc t.reverse
  rw [hu, List.reverse_append]
  exact ⟨u.reverse, by simp⟩

/-- A new-subject line always splits into at least one name token, so the
`parts[0]` access in `parse_skater_name` cannot fail there. -/
lemma parse_skater_name_isSome {l : List Char} (hname : isNameL l = true) :
    ∃ fl, parse_skater_name l = some fl := by
  unfold isNameL at hname
  cases l with
  | nil => simp at hname
  | cons c t =>
    simp only [Bool.and_eq_true] at hname
    have hup : c.isUpper = true := by simpa using hname.2
    have hcw := isUpper_not_ws hup
    have hls : lstripL (c :: t) = c :: t := by
      simp [lstripL, List.dropWhile_cons, hcw]
    obtain ⟨u, hu⟩ : ∃ u, stripL (c :: t) = c :: u := by
      unfold stripL
      rw [hls]
      exact rstripL_head hcw
    have hls2 : lstripL (c :: u) = c :: u := by
      simp [lstripL, List.dropWhile_cons, hcw]
    unfold parse_skater_name
    rw [hu]
    unfold splitMax1
    rw [hls2]
    by_cases hr : (lstripL (tokenAux (c :: u)).2).isEmpty = true
    · exact ⟨_, by simp [hr] <;> rfl⟩
    · simp only [Bool.not_eq_true] at hr
      exact ⟨_, by simp [hr] <;> rfl⟩

/-- A loop step on a line whose `int()` call cannot fail never errors. -/
lemma processLine_ok {filter : List Char} {st : PState} {raw : List Char}
    (h : goodEventLine raw = true) :
    ∃ st', processLine filter st raw = .ok st' := by
  by_cases h1 : isHeaderL (rstripL raw) = true
  · exact ⟨_, by simp [processLine, h1] <;> rfl⟩
  simp only [Bool.not_eq_true] at h1
  by_cases h2 : sectionSkip filter st.currentSection = true
  · exact ⟨_, by simp [processLine, h1, h2] <;> rfl⟩
  simp only [Bool.not_eq_true] at h2
  by_cases h3 : isNameL (rstripL raw) = true
  · obtain ⟨⟨f, l⟩, hfl⟩ := parse_skater_name_isSome h3
    exact ⟨_, by simp [processLine, h1, h2, h3, hfl] <;> rfl⟩
  simp only [Bool.not_eq_true] at h3
  cases hc : st.current with
  | none => exact ⟨st, by simp [processLine, h1, h2, h3, hc] <;> rfl⟩
  | some sk =>
    by_cases h4 : isEventL (rstripL raw) = true
    · unfold goodEventLine at h
      rw [h4] at h
      simp only [Bool.not_true, Bool.false_or] at h
      cases hsw : splitWs (stripL (rstripL raw)) with
      | nil => rw [hsw] at h; simp at h
      | cons a rest =>
        cases rest with
        | nil => rw [hsw] at h; simp at h
        | cons t rest2 =>
          rw [hsw] at h
          obtain ⟨n, hn⟩ := Option.isSome_iff_exists.mp h
          exact ⟨_, by simp [processLine, h1, h2, h3, hc, h4, hsw, hn] <;> rfl⟩
    simp only [Bool.not_eq_true] at h4
    by_cases h5 : isEmailL (rstripL raw) = true
    · exact ⟨_, by simp [processLine, h1, h2, h3, hc, h4, h5] <;> rfl⟩
    simp only [Bool.not_eq_true] at h5
    by_cases h6 : isStatusL (rstripL raw) = true
    · exact ⟨_, by simp [processLine, h1, h2, h3, hc, h4, h5, h6] <;> rfl⟩
    simp only [Bool.not_eq_true] at h6
    by_cases h7 : isNoteL (rstripL raw) = true
    · exact ⟨_, by simp [processLine, h1, h2, h3, hc, h4, h5, h6, h7] <;> rfl⟩
    simp only [Bool.not_eq_true] at h7
    exact ⟨_, by simp [processLine, h1, h2, h3, hc, h4, h5, h6, h7] <;> rfl⟩

/-- The whole loop succeeds on a document of harmless lines. -/
lemma foldlM_ok {filter : List Char} :
    ∀ (doc : List (List Char)) (st : PState),
      doc.all goodEventLine = true →
      ∃ st', doc.foldlM (processLine filter) st = .ok st' := by
  intro doc
  induction doc with
  | nil =>
    intro st _
    exact ⟨st, by simp [List.foldlM_nil, pure, Except.pure]⟩
  | cons raw rest ih =>
    intro st h
    rw [List.all_cons, Bool.and_eq_true] at h
    obtain ⟨st1, hp⟩ := @processLine_ok filter st raw h.1
    obtain ⟨st', hr⟩ := ih st1 h.2
    refine ⟨st', ?_⟩
    rw [List.foldlM_cons, hp]
    simpa [Bind.bind, Except.bind] using hr

/-- C3 amended: extraction is total on documents whose reference-number
lines (stripped text starting with `'Event '`) carry an integer second
token; all other unmatched lines are skipped and unrecognized status text
falls back to the default classification. -/
theorem claim_C3_amended_totality (doc : List (List Char)) (filter : List Char)
    (h : doc.all goodEventLine = true) :
    ∃ sks, parse_markdown doc filter = .ok sks := by
  obtain ⟨stf, hf⟩ := foldlM_ok doc ⟨[], none, none⟩ h
  refine ⟨finalize stf, ?_⟩
  unfold parse_markdown
  rw [hf]
  simp [Bind.bind, Except.bind, pure, Except.pure]

/-- Witness for the amended C3 at a concrete well-formed document. -/
theorem claim_C3_witness :
    (["## S".toList, "A x".toList, "  Event 2".toList,
        "  oddly formatted line!".toList]).all goodEventLine = true
    ∧ ∃ sks, parse_markdown ["## S".toList, "A x".toList, "  Event 2".toList,
        "  oddly formatted line!".toList] ("All".toList) = .ok sks :=
  ⟨by decide,
    claim_C3_amended_totality ["## S".toList, "A x".toList, "  Event 2".toList,
      "  oddly formatted line!".toList] ("All".toList) (by decide)⟩

/-- The line reaches the status branch of the loop body: it is no header,
is not skipped by the section filter, and fails the name, event and email
tests before containing `'Status:'` (a current entry is assumed). -/
def statusBranch (filter : List Char) (cur : Option (List Char))
    (raw : List Char) : Bool :=
  !isHeaderL (rstripL raw) && !sectionSkip filter cur && !isNameL (rstripL raw) &&
    !isEventL (rstripL raw) && !isEmailL (rstripL raw) && isStatusL (rstripL raw)

/-- The line reaches the email branch of the loop body. -/
def emailBranch (filter : List Char) (cur : Option (List Char))
    (raw : List Char) : Bool :=
  !isHeaderL (rstripL raw) && !sectionSkip filter cur && !isNameL (rstripL raw) &&
    !isEventL (rstripL raw) && isEmailL (rstripL raw)

/-- A status line rewrites exactly the three status fields of the current
entry from its own text. -/
lemma processLine_status {filter : List Char} {st : PState} {sk : Skater}
    {raw : List Char} (hc : st.current = some sk)
    (hb : statusBranch filter st.currentSection raw = true) :
    processLine filter st raw
      = .ok ⟨st.skaters, some (applyStatus sk (rstripL raw)), st.currentSection⟩ := by
  unfold statusBranch at hb
  simp only [Bool.and_eq_true, Bool.not_eq_true'] at hb
  obtain ⟨⟨⟨⟨⟨b1, b2⟩, b3⟩, b4⟩, b5⟩, b6⟩ := hb
  simp [processLine, b1, b2, b3, hc, b4, b5, b6]

/-- An email line rewrites exactly the contact field of the current
entry from its own text. -/
lemma processLine_email {filter : List Char} {st : PState} {sk : Skater}
    {raw : List Char} (hc : st.current = some sk)
    (hb : emailBranch filter st.currentSection raw = true) :
    processLine filter st raw
      = .ok ⟨st.skaters, some (applyEmail sk (rstripL raw)), st.currentSection⟩ := by
  unfold emailBranch at hb
  simp only [Bool.and_eq_true, Bool.not_eq_true'] at hb
  obtain ⟨⟨⟨⟨b1, b2⟩, b3⟩, b4⟩, b5⟩ := hb
  simp [processLine, b1, b2, b3, hc, b4, b5]

/-- C10: within one accumulated entry, later field-setting lines
overwrite earlier ones.  Two consecutive status lines leave the three
status fields exactly as parsed from the second line; two consecutive
email lines leave the contact exactly as computed from the second line,
including resetting it to unset when the text after `'Email:'` is
empty. -/
theorem claim_C10_later_lines_overwrite (filter : List Char) (st : PState)
    (sk : Skater) (l1 l2 : List Char) (hc : st.current = some sk) :
    (statusBranch filter st.currentSection l1 = true →
      statusBranch filter st.currentSection l2 = true →
      (processLine filter st l1).bind (fun st1 => processLine filter st1 l2)
        = .ok ⟨st.skaters, some (applyStatus sk (rstripL l2)), st.currentSection⟩
      ∧ (applyStatus sk (rstripL l2)).gallery_status = (parse_status (rstripL l2)).1
      ∧ (applyStatus sk (rstripL l2)).gross_amount = (parse_status (rstripL l2)).2.1
      ∧ (applyStatus sk (rstripL l2)).net_amount = (parse_status (rstripL l2)).2.2)
    ∧ (emailBranch filter st.currentSection l1 = true →
      emailBranch filter st.currentSection l2 = true →
      (processLine filter st l1).bind (fun st1 => processLine filter st1 l2)
        = .ok ⟨st.skaters, some (applyEmail sk (rstripL l2)), st.currentSection⟩
      ∧ (applyEmail sk (rstripL l2)).email = emailVal (rstripL l2)
      ∧ (stripL (afterFirst ("Email:".toList) (rstripL l2)) = [] →
          (applyEmail sk (rstripL l2)).email = none)) := by
  constructor
  · intro hb1 hb2
    have p1 := processLine_status hc hb1
    have p2 := @processLine_status filter
      ⟨st.skaters, some (applyStatus sk (rstripL l1)), st.currentSection⟩
      (applyStatus sk (rstripL l1)) l2 rfl hb2
    refine ⟨?_, rfl, rfl, rfl⟩
    rw [p1]
    simp only [Except.bind]
    rw [p2]
    rfl
  · intro hb1 hb2
    have p1 := processLine_email hc hb1
    have p2 := @processLine_email filter
      ⟨st.skaters, some (applyEmail sk (rstripL l1)), st.currentSection⟩
      (applyEmail sk (rstripL l1)) l2 rfl hb2
    refine ⟨?_, rfl, ?_⟩
    · rw [p1]
      simp only [Except.bind]
      rw [p2]
      rfl
    · intro h0
      simp only [applyEmail, emailVal]
      rw [h0]
      rfl

def stC10 : PState := ⟨[], some (startSkater none ("J".toList) ("S".toList)), none⟩

/-- Witness for C10: two concrete status lines processed in sequence. -/
theorem claim_C10_witness :
    stC10.current = some (startSkater none ("J".toList) ("S".toList))
    ∧ statusBranch ("All".toList) stC10.currentSection ("   Status: Sent".toList) = true
    ∧ statusBranch ("All".toList) stC10.currentSection
        ("   Status: Purchased (Net: $20.00)".toList) = true
    ∧ (processLine ("All".toList) stC10 ("   Status: Sent".toList)).bind
        (fun st1 => processLine ("All".toList) st1
          ("   Status: Purchased (Net: $20.00)".toList))
      = .ok ⟨stC10.skaters,
          some (applyStatus (startSkater none ("J".toList) ("S".toList))
            (rstripL ("   Status: Purchased (Net: $20.00)".toList))),
          stC10.currentSection⟩ :=
  ⟨rfl, by decide, by decide,
    ((claim_C10_later_lines_overwrite ("All".toList) stC10
        (startSkater none ("J".toList) ("S".toList))
        ("   Status: Sent".toList)
        ("   Status: Purchased (Net: $20.00)".toList) rfl).1
      (by decide) (by decide)).1⟩

end SkaterImport
